import Mathlib

/-!
Verification of the `DatePicker` input state machine.

Shallow embedding of the date/text parsing and formatting logic of the
`DatePicker` component
(`src/packages/fluent-controls/src/components/DateTime/DatePicker.tsx`).

Buffers are modelled as `List Char` (named `JStr`), matching JavaScript
strings character by character.  The `NaN`-producing `parseInt` of
JavaScript
is modelled with `Option Int` (`none` plays the role of `NaN`; every
comparison against `NaN` is false, which the `opt*` helpers encode).

The helpers `MethodDate`, `replaceAt`, `formatDate`, `dateIsValid` and
`MethodDate.fromString` live in `Common/` and `DateTime/helpers` of the
repository and are not part of the sources here; they are modelled from
the specification (each such definition carries a doc comment starting
with `Modelled from the spec:`).
-/

/-- JavaScript strings, modelled as lists of characters. -/
abbrev JStr := List Char

/-- JavaScript `s[i]`: `some` character, or `none` for the
JavaScript `undefined` when the index is out of range (negative included). -/
def jsCharAt (s : JStr) (i : Int) : Option Char :=
  if i < 0 then none else s.get? i.toNat

/-- JavaScript `s.substr(start, len)`, restricted to the uses in the source
(`start = 0`): a non-positive length yields the empty string. -/
def jsSubstr0 (s : JStr) (len : Int) : JStr :=
  if len ≤ 0 then [] else s.take len.toNat

/-- Longest digit-only prefix of a string, as consumed by `parseInt`. -/
def leadingDigits : JStr → JStr
  | [] => []
  | c :: cs => if c.isDigit then c :: leadingDigits cs else []

/-- Value of a digit string (most significant digit first). -/
def natFromDigits (ds : JStr) : Nat :=
  ds.foldl (fun a c => a * 10 + (c.toNat - 48)) 0

/-- JavaScript `parseInt(s)` for the inputs occurring here (an optional
leading minus sign followed by digits); `none` models `NaN`. -/
def parseIntJS (s : JStr) : Option Int :=
  match s with
  | [] => none
  | c :: cs =>
    if c == '-' then
      match leadingDigits cs with
      | [] => none
      | ds => some (-(natFromDigits ds : Int))
    else
      match leadingDigits (c :: cs) with
      | [] => none
      | ds => some ((natFromDigits ds : Int))

/-- JavaScript `parseInt(s[i])` — parse the single character at index `i`. -/
def parseIntAt (s : JStr) (i : Int) : Option Int :=
  match jsCharAt s i with
  | some c => parseIntJS [c]
  | none => none

/-- Comparison `x > b` where `x` may be `NaN` (`none`): false on `NaN`. -/
def optGt (x : Option Int) (b : Int) : Bool :=
  match x with
  | some v => b < v
  | none => false

/-- Comparison `x < b` where `x` may be `NaN` (`none`): false on `NaN`. -/
def optLt (x : Option Int) (b : Int) : Bool :=
  match x with
  | some v => v < b
  | none => false

/-- JavaScript `s.split('/')`. -/
def splitSlash : JStr → List JStr
  | [] => [[]]
  | c :: rest =>
    let r := splitSlash rest
    if c == '/' then [] :: r
    else
      match r with
      | h :: t => (c :: h) :: t
      | [] => [[c]]

/-- Decimal digit character for `n ≤ 9` (used with `n % 10`). -/
def digitChar10 : Nat → Char
  | 0 => '0' | 1 => '1' | 2 => '2' | 3 => '3' | 4 => '4'
  | 5 => '5' | 6 => '6' | 7 => '7' | 8 => '8' | _ => '9'

/-- Fuel-driven digit expansion (structural recursion so that closed terms
reduce in the kernel); correct whenever `n < fuel`. -/
def natToDigitsAux : Nat → Nat → JStr
  | 0, _ => []
  | fuel + 1, n =>
    if n < 10 then [digitChar10 n]
    else natToDigitsAux fuel (n / 10) ++ [digitChar10 (n % 10)]

/-- Decimal digits of a natural number, most significant first. -/
def natToDigits (n : Nat) : JStr :=
  natToDigitsAux (n + 1) n

/-- JavaScript `n.toString()` on an integer. -/
def intToStr (n : Int) : JStr :=
  if n < 0 then '-' :: natToDigits (-n).toNat else natToDigits n.toNat

/-- Digits of `n`, left-padded with zeros to width `w`. -/
def padDigits (w n : Nat) : JStr :=
  List.replicate (w - (natToDigits n).length) '0' ++ natToDigits n

/-- The three date formats of the component (`Common/DateFormat`). -/
inductive DateFormat
  | MMDDYYYY
  | DDMMYYYY
  | YYYYMMDD
deriving DecidableEq, Repr

/-- Gregorian leap-year rule, as computed by the JavaScript `Date` calendar. -/
def isLeapYear (y : Int) : Bool :=
  y % 4 == 0 && (!(y % 100 == 0) || y % 400 == 0)

/-- Days in 0-based month `m` of year `y`. -/
def daysInMonth (y : Int) (m : Nat) : Nat :=
  match m with
  | 0 => 31
  | 1 => if isLeapYear y then 29 else 28
  | 2 => 31
  | 3 => 30
  | 4 => 31
  | 5 => 30
  | 6 => 31
  | 7 => 31
  | 8 => 30
  | 9 => 31
  | 10 => 30
  | _ => 31

/-- The structured date value wrapped by `MethodDate` (`Common/`, not under
the sources here).  `month` is 0-based as in the JavaScript `Date` API;
fields are stored normalized. -/
structure MethodDate where
  year : Int
  month : Nat
  date : Nat
  hours : Nat
  minutes : Nat
  seconds : Nat
deriving DecidableEq, Repr

/-- Modelled from the spec: calendar normalization performed by the
JavaScript `Date` constructor underlying `MethodDate`.  The spec describes
the overflow behaviour used by the round-trip check: "day 31 in a 30-day
month overflows to the next month".  Every call site passes
`0 ≤ m0 < 12` and `1 ≤ d ≤ 31`, so at most one month of day overflow can
occur; out-of-range inputs are clamped (unreachable in this development).
Clock fields are carried over unchanged (the spec: "hour/minute/second:
carried over from a previously known value or zero"). -/
def mkDate (y : Int) (m0 : Int) (d : Int) (h mi s : Nat) : MethodDate :=
  let y1 := if 0 ≤ m0 then y + (m0.toNat / 12 : Nat) else y
  let m1 := if 0 ≤ m0 then m0.toNat % 12 else 0
  let dim := daysInMonth y1 m1
  if d > (dim : Int) then
    if m1 + 1 == 12 then
      { year := y1 + 1, month := 0, date := (d - dim).toNat,
        hours := h, minutes := mi, seconds := s }
    else
      { year := y1, month := m1 + 1, date := (d - dim).toNat,
        hours := h, minutes := mi, seconds := s }
  else if d < 1 then
    { year := y1, month := m1, date := 1, hours := h, minutes := mi, seconds := s }
  else
    { year := y1, month := m1, date := d.toNat, hours := h, minutes := mi, seconds := s }

/-- Modelled from the spec: the `MethodDate` constructor
(`new MethodDate(localTimezone, year, month, date, hours, minutes, seconds)`,
`Common/`, not under the sources here).  The two-digit-year quirk of the
calendar API maps a year below 100 to `1900 + year` ("the MethodDate/Date
constructor forces years to be at least 100").  The timezone flag does not
affect the stored calendar fields in this pure model. -/
def MethodDate.create (localTimezone : Bool) (y m0 d : Int) (h mi s : Nat) :
    MethodDate :=
  let y' := if 0 ≤ y && y < 100 then y + 1900 else y
  mkDate y' m0 d h mi s

/-- Modelled from the spec: `dateObject.setFullYear(y, m, d)` /
`setUTCFullYear(y, m, d)` — re-sets the calendar fields exactly, with no
century assumption; clock fields are kept.  The local and fixed-offset
variants coincide on the stored calendar fields in this pure model. -/
def MethodDate.setFullYear (md : MethodDate) (y m0 d : Int) : MethodDate :=
  mkDate y m0 d md.hours md.minutes md.seconds

/-- Modelled from the spec: `date.copy()` returns an equal value. -/
def MethodDate.copy (md : MethodDate) : MethodDate := md

/-- Modelled from the spec: `MethodDate.fromDate(localTimezone, date)` wraps
an already-structured date value. -/
def MethodDate.fromDate (localTimezone : Bool) (md : MethodDate) : MethodDate := md

/-- Modelled from the spec: `dateObject.toUTCString()`, the "fully
normalized date representation (UTC string) emitted to the host". -/
def MethodDate.toUTCString (md : MethodDate) : JStr :=
  intToStr md.year ++ '-' :: padDigits 2 (md.month + 1) ++ '-' :: padDigits 2 md.date
    ++ ' ' :: padDigits 2 md.hours ++ ':' :: padDigits 2 md.minutes
    ++ ':' :: padDigits 2 md.seconds ++ " UTC".data

/-- Modelled from the spec: `formatDate` (`DateTime/helpers`, not under the
sources here) renders a date per `DateFormat`: two-digit month and day,
four-digit year, separated by `/`. -/
def formatDate (md : MethodDate) (fmt : DateFormat) : JStr :=
  let m := padDigits 2 (md.month + 1)
  let d := padDigits 2 md.date
  let y := padDigits 4 md.year.toNat
  match fmt with
  | .MMDDYYYY => m ++ '/' :: d ++ '/' :: y
  | .DDMMYYYY => d ++ '/' :: m ++ '/' :: y
  | .YYYYMMDD => y ++ '/' :: m ++ '/' :: d

/-- Modelled from the spec: `dateIsValid` (`Common/`, not under the sources
here) — a structured date is calendar-valid when year ≥ 1 and the fields
denote an existing calendar day. -/
def dateIsValid (md : MethodDate) (localTimezone : Bool) : Bool :=
  1 ≤ md.year && md.month ≤ 11 && 1 ≤ md.date
    && md.date ≤ daysInMonth md.year md.month

/-- Modelled from the spec: `replaceAt` (`DateTime/helpers`, not under the
sources here).  The left-padding rule of the spec ("left-pad with 0 ... e.g.
first digit 4 in day position yields 04") requires the replacement text to
be placed before the character at the given index, keeping that character. -/
def replaceAt (v : JStr) (i : Int) (r : JStr) : JStr :=
  v.take i.toNat ++ r ++ v.drop i.toNat

/-- English month names, for the generic date-string parser. -/
def monthNames : List JStr :=
  ["January".data, "February".data, "March".data, "April".data,
   "May".data, "June".data, "July".data, "August".data,
   "September".data, "October".data, "November".data, "December".data]

/-- The 0-based index of a month name; `none` for any other word. -/
def monthIdx (w : JStr) : Option Nat :=
  if monthNames.indexOf w < 12 then some (monthNames.indexOf w) else none

/-- Modelled from the spec: the shape-recognition part of
`MethodDate.fromString` — a free-form date string of the form
`<MonthName> <one-or-two-digit day>, <four-digit year>` (the example in the spec
is "March 3, 2024").  Returns `(year, 0-based month, day)`. -/
def fromStringAux (s : JStr) : Option (Nat × Nat × Nat) :=
  match monthIdx (s.takeWhile (· ≠ ' ')) with
  | none => none
  | some m0 =>
    match s.drop (s.takeWhile (· ≠ ' ')).length with
    | ' ' :: rest =>
      if (rest.takeWhile Char.isDigit).length == 0
          || 2 < (rest.takeWhile Char.isDigit).length then none
      else
        match rest.drop (rest.takeWhile Char.isDigit).length with
        | ',' :: ' ' :: ys =>
          if ys.length == 4 && ys.all Char.isDigit then
            some (natFromDigits ys, m0, natFromDigits (rest.takeWhile Char.isDigit))
          else none
        | _ => none
    | _ => none

/-- Modelled from the spec: `MethodDate.fromString(localTimezone, s)`
(`Common/`, not under the sources here) — "attempt to parse it as a generic
date string"; `none` unless the result is calendar-valid.  Time-of-day
fields are zero. -/
def MethodDate.fromString (localTimezone : Bool) (s : JStr) : Option MethodDate :=
  match fromStringAux s with
  | some (y, m0, d) =>
    if 1 ≤ y && 1 ≤ d && d ≤ daysInMonth (y : Int) m0 then
      some { year := y, month := m0, date := d, hours := 0, minutes := 0, seconds := 0 }
    else none
  | none => none

/-- The configuration of a `DatePicker` instance that the input logic
reads: `props.format`, `props.localTimezone`, and whether the host supplied
an `onPaste` callback. -/
structure Props where
  format : DateFormat
  localTimezone : Bool
  hasOnPaste : Bool
deriving DecidableEq, Repr

/-- The JavaScript value stored in the instance field `this.paste`
(`boolean | string`, also assigned `null`). -/
inductive JsVal
  | ff
  | tt
  | nullv
  | str (s : JStr)
deriving DecidableEq, Repr

/-- JavaScript truthiness of `this.paste` (the UTC strings stored in it are
never empty, so a stored string is truthy). -/
def jsTruthy : JsVal → Bool
  | .tt => true
  | .str _ => true
  | _ => false

/-- The component state (`DatePickerState`) together with the instance
field `this.paste`. -/
structure PickerState where
  value : JStr
  dateValue : Option MethodDate
  initialValue : Option MethodDate
  visible : Bool
  invalid : Bool
  error : Bool
  paste : JsVal
deriving DecidableEq, Repr

/-- Hours of the reference date: `hasVal ? initialValue.hours : 0`.  The
source also dereferences `initialValue.hours` without a null check at
the parse step of `onInput`, where the state invariant keeps `initialValue`
non-null; the model defaults to 0 there as well. -/
def refHours (iv : Option MethodDate) : Nat :=
  match iv with
  | some v => v.hours
  | none => 0

/-- Minutes of the reference date (see `refHours`). -/
def refMinutes (iv : Option MethodDate) : Nat :=
  match iv with
  | some v => v.minutes
  | none => 0

/-- Seconds of the reference date (see `refHours`). -/
def refSeconds (iv : Option MethodDate) : Nat :=
  match iv with
  | some v => v.seconds
  | none => 0

/-- The method `handleMonth(newValue, position)` (DatePicker.tsx, lines 262-294):
incremental typing assist for a month segment.  `stValue` is
`this.state.value`, used when the new character is rejected. -/
def handleMonth (stValue newValue : JStr) (position : Int) : JStr :=
  let lastNum := parseIntAt newValue ((newValue.length : Int) - 1)
  let suffix : JStr := if position < 3 then ['/'] else []
  if newValue.length == 1
      || jsCharAt newValue ((newValue.length : Int) - 2) == some '/' then
    match lastNum with
    | some n =>
      if 1 < n then
        (if 1 < position then
          replaceAt newValue ((newValue.length : Int) - 1) ['0']
        else
          '0' :: intToStr n) ++ suffix
      else newValue
    | none => newValue
  else
    let otherLastNum := parseIntAt newValue ((newValue.length : Int) - 2)
    if optLt otherLastNum 1 then newValue ++ suffix
    else if optLt lastNum 3 then newValue ++ suffix
    else stValue

/-- The method `handleDay(newValue, position)` (DatePicker.tsx, lines 306-343):
incremental typing assist for a day segment.  The source notes that the day
is not cross-checked against the month here. -/
def handleDay (stValue newValue : JStr) (position : Int) : JStr :=
  let lastNum := parseIntAt newValue ((newValue.length : Int) - 1)
  let suffix : JStr := if position < 3 then ['/'] else []
  if newValue.length == 1
      || jsCharAt newValue ((newValue.length : Int) - 2) == some '/' then
    match lastNum with
    | some n =>
      if 3 < n then
        (if 1 < position then
          replaceAt newValue ((newValue.length : Int) - 1) ['0']
        else
          '0' :: intToStr n) ++ suffix
      else newValue
    | none => newValue
  else
    let otherLastNum := parseIntAt newValue ((newValue.length : Int) - 2)
    if optLt otherLastNum 3 then newValue ++ suffix
    else if optLt lastNum 2 then newValue ++ suffix
    else stValue

/-- The method `handleTyping(newValue)` (DatePicker.tsx, lines 351-392): dispatch of
the typing assist on buffer length and date format. -/
def handleTyping (fmt : DateFormat) (stValue newValue : JStr) : JStr :=
  match fmt with
  | .YYYYMMDD =>
    if newValue.length == 4 then newValue ++ ['/']
    else if newValue.length == 6 then handleMonth stValue newValue 2
    else if newValue.length == 7 then handleMonth stValue newValue 2
    else if newValue.length == 9 then handleDay stValue newValue 3
    else if 10 < newValue.length then newValue.take 10
    else newValue
  | .MMDDYYYY =>
    if newValue.length == 1 then handleMonth stValue newValue 1
    else if newValue.length == 2 then handleMonth stValue newValue 1
    else if newValue.length == 4 then handleDay stValue newValue 2
    else if newValue.length == 5 then handleDay stValue newValue 2
    else if 10 < newValue.length then newValue.take 10
    else newValue
  | .DDMMYYYY =>
    if newValue.length == 1 then handleDay stValue newValue 1
    else if newValue.length == 2 then handleDay stValue newValue 1
    else if newValue.length == 4 then handleMonth stValue newValue 2
    else if newValue.length == 5 then handleMonth stValue newValue 2
    else if 10 < newValue.length then newValue.take 10
    else newValue

/-- The method `handleDeletion(newValue)` (DatePicker.tsx, lines 400-405): when the
character just removed from the end was the separator, also drop the digit
that became trailing. -/
def handleDeletion (stValue newValue : JStr) : JStr :=
  if jsCharAt stValue ((stValue.length : Int) - 1) == some '/' then
    jsSubstr0 newValue ((newValue.length : Int) - 1)
  else newValue

/-- Result record of `parse` (`{ year, month, date, valid }`); the numeric
fields may be `NaN` (`none`). -/
structure ParseResult where
  year : Option Int
  month : Option Int
  date : Option Int
  valid : Bool
deriving DecidableEq, Repr

/-- Pad the split components with the sentinel `"-1"` up to three
(`while (split.length < 3) split.push("-1")`). -/
def padTo3 (l : List JStr) : List JStr :=
  if l.length < 3 then
    if l.length + 1 < 3 then l ++ ["-1".data, "-1".data] else l ++ ["-1".data]
  else l

/-- The method `parse(newValue)` (DatePicker.tsx, lines 407-459): split the buffer on
`/`, map the components to year/month/day per the date format, range-check
them independently, and validate by calendar round trip through the
`MethodDate` constructor. -/
def parse (fmt : DateFormat) (localTimezone : Bool) (iv : Option MethodDate)
    (newValue : JStr) : ParseResult :=
  let split0 := splitSlash newValue
  let valid0 := split0.length == 3
  let split := padTo3 split0
  let year :=
    match fmt with
    | .DDMMYYYY => parseIntJS (split.getD 2 [])
    | .MMDDYYYY => parseIntJS (split.getD 2 [])
    | .YYYYMMDD => parseIntJS (split.getD 0 [])
  let month :=
    match fmt with
    | .DDMMYYYY => parseIntJS (split.getD 1 [])
    | .MMDDYYYY => parseIntJS (split.getD 0 [])
    | .YYYYMMDD => parseIntJS (split.getD 1 [])
  let date :=
    match fmt with
    | .DDMMYYYY => parseIntJS (split.getD 0 [])
    | .MMDDYYYY => parseIntJS (split.getD 1 [])
    | .YYYYMMDD => parseIntJS (split.getD 2 [])
  let okYear := match year with | some y => 1 ≤ y | none => false
  let okMonth := match month with | some m => 1 ≤ m && m ≤ 12 | none => false
  let okDate := match date with | some d => 1 ≤ d && d ≤ 31 | none => false
  let valid1 := valid0 && okYear && okMonth && okDate
  let valid :=
    if valid1 then
      match year, month, date with
      | some y, some m, some d =>
        let parsed := MethodDate.create localTimezone y (m - 1) d
          (refHours iv) (refMinutes iv) (refSeconds iv)
        !(m != (parsed.month : Int) + 1 || d != (parsed.date : Int))
      | _, _, _ => false
    else false
  { year := year, month := month, date := date, valid := valid }

/-- The branch-local variables of `onInput` after the paste / deletion /
addition classification (DatePicker.tsx, lines 461-533): the possibly
transformed buffer and the updated `invalid` / `initialValue` / `dateValue`
/ `paste` values. -/
structure CoreOut where
  nv : JStr
  invalid : Bool
  initialValue : Option MethodDate
  dateValue : Option MethodDate
  paste : JsVal
deriving DecidableEq, Repr

/-- The classification part of `onInput(event)` (DatePicker.tsx, lines
461-533). -/
def onInputCore (props : Props) (st : PickerState) (raw : JStr) : CoreOut :=
  if jsTruthy st.paste then
    match MethodDate.fromString props.localTimezone raw with
    | some date =>
      { nv := formatDate date props.format, invalid := false,
        initialValue := some date, dateValue := some date.copy,
        paste := JsVal.str date.toUTCString }
    | none =>
      { nv := raw, invalid := true, initialValue := st.initialValue,
        dateValue := none, paste := JsVal.nullv }
  else if raw.length ≤ st.value.length then
    if st.value.length - raw.length == 1 then
      if 0 < st.value.length then
        if jsCharAt raw ((raw.length : Int) - 1)
            ≠ jsCharAt st.value ((st.value.length : Int) - 1) then
          let nv := handleDeletion st.value raw
          let invalid :=
            if nv.length ≤ 10 then
              !(parse props.format props.localTimezone st.initialValue nv).valid
            else true
          { nv := nv, invalid := invalid, initialValue := st.initialValue,
            dateValue := st.dateValue, paste := st.paste }
        else
          { nv := raw, invalid := true, initialValue := st.initialValue,
            dateValue := st.dateValue, paste := st.paste }
      else
        { nv := raw, invalid := st.invalid, initialValue := st.initialValue,
          dateValue := st.dateValue, paste := st.paste }
    else
      { nv := raw, invalid := if raw.length == 0 then true else st.invalid,
        initialValue := st.initialValue, dateValue := st.dateValue,
        paste := st.paste }
  else
    if raw.length ≤ 10 then
      let oldSlice := jsSubstr0 st.value ((st.value.length : Int) - 1)
      let newSlice := jsSubstr0 raw ((raw.length : Int) - 2)
      if 1 < raw.length && newSlice ≠ oldSlice then
        { nv := raw, invalid := true, initialValue := st.initialValue,
          dateValue := st.dateValue, paste := st.paste }
      else
        { nv := if st.invalid then raw else handleTyping props.format st.value raw,
          invalid := st.invalid, initialValue := st.initialValue,
          dateValue := st.dateValue, paste := st.paste }
    else
      { nv := if st.invalid then raw else st.value, invalid := st.invalid,
        initialValue := st.initialValue, dateValue := st.dateValue,
        paste := st.paste }

/-- The settling part of `onInput(event)` (DatePicker.tsx, lines 535-588):
the empty-buffer reset, the long-buffer free-form reparse, the full-string
parse with the two-digit-year correction, and the final `setState`.  The
source computes a local `error` variable here but passes `error: invalid`
to `setState`, so that variable is dead and is not modelled. -/
def onInputTail (props : Props) (visible : Bool) (c : CoreOut) : PickerState :=
  let invalid0 := if c.nv.length == 0 then false else c.invalid
  if 11 < c.nv.length then
    match MethodDate.fromString props.localTimezone c.nv with
    | some date =>
      { value := formatDate date props.format, invalid := false, error := false,
        dateValue := some date, initialValue := some date,
        visible := visible, paste := c.paste }
    | none =>
      { value := c.nv, invalid := true, error := true,
        dateValue := none, initialValue := c.initialValue,
        visible := visible, paste := c.paste }
  else
    let result := parse props.format props.localTimezone c.initialValue c.nv
    if result.valid then
      match result.year, result.month, result.date with
      | some y, some m, some d =>
        let dv0 := MethodDate.create props.localTimezone y (m - 1) d
          (refHours c.initialValue) (refMinutes c.initialValue)
          (refSeconds c.initialValue)
        let dv := if y < 100 then dv0.setFullYear y (m - 1) d else dv0
        { value := c.nv, invalid := false, error := false,
          dateValue := some dv, initialValue := c.initialValue,
          visible := visible, paste := c.paste }
      | _, _, _ =>
        -- unreachable: a valid parse has non-`NaN` components
        { value := c.nv, invalid := false, error := false,
          dateValue := none, initialValue := c.initialValue,
          visible := visible, paste := c.paste }
    else
      { value := c.nv, invalid := invalid0, error := invalid0,
        dateValue := none, initialValue := c.initialValue,
        visible := visible, paste := c.paste }

/-- The method `onInput(event)` (DatePicker.tsx, lines 461-589): classification of the
edit followed by settling and `setState`. -/
def onInput (props : Props) (st : PickerState) (raw : JStr) : PickerState :=
  onInputTail props st.visible (onInputCore props st raw)

/-- A notification to the host: the standard change channel
(`props.onChange`) or the paste channel (`props.onPaste`). -/
inductive Notification
  | change (s : JStr)
  | pasteOut (s : JStr)
deriving DecidableEq, Repr

/-- The notification part of `componentDidUpdate` (DatePicker.tsx, lines
229-250): emitted notifications and the resulting `this.paste`. -/
def componentDidUpdate (props : Props) (oldValue : JStr) (st : PickerState) :
    List Notification × PickerState :=
  if oldValue ≠ st.value || jsTruthy st.paste then
    match st.dateValue with
    | some dv =>
      match st.paste with
      | .str s =>
        if props.hasOnPaste then ([.pasteOut s], { st with paste := JsVal.ff })
        else ([.change dv.toUTCString], { st with paste := JsVal.ff })
      | _ => ([.change dv.toUTCString], { st with paste := JsVal.ff })
    | none => ([.change "invalid".data], st)
  else ([], st)

/-- The seed value `props.initialValue` (`Date | string | undefined`). -/
inductive Seed
  | str (s : JStr)
  | date (d : MethodDate)
deriving DecidableEq, Repr

/-- The method `getInitialState(props)` (DatePicker.tsx, lines 139-188).  `today` is
the external current date (`new MethodDate(local)`).  In the source, the inner
`if (props.initialValue)` in the structured branch repeats the outer guard,
so its else-arm is unreachable and not modelled. -/
def getInitialState (props : Props) (today : MethodDate) (seed : Option Seed) :
    PickerState :=
  let r :=
    match seed with
    | none =>
      (([] : JStr), false, (none : Option MethodDate), (none : Option MethodDate))
    | some (.str s) =>
      match MethodDate.fromString props.localTimezone s with
      | some date =>
        if dateIsValid date props.localTimezone then
          (formatDate date props.format, false, some date, some date)
        else (s, true, none, none)
      | none => (s, true, none, none)
    | some (.date d) =>
      if !(dateIsValid d props.localTimezone) then
        (formatDate d props.format, true, none, none)
      else
        (formatDate d props.format, false,
         some (MethodDate.fromDate props.localTimezone d),
         some (MethodDate.fromDate props.localTimezone d))
  let (value, invalid, initialValue, dateValue) := r
  let (initialValue, dateValue) :=
    if initialValue.isNone then (some today, none) else (initialValue, dateValue)
  { value := value, invalid := invalid, initialValue := initialValue,
    dateValue := dateValue, visible := false, error := invalid, paste := JsVal.ff }

/-- The method `onSelect(newValue)` (DatePicker.tsx, lines 637-644): accept a date
chosen in the calendar overlay. -/
def onSelect (props : Props) (st : PickerState) (newValue : MethodDate) :
    PickerState :=
  { st with
    value := formatDate newValue props.format,
    error := false,
    visible := false,
    dateValue := some (MethodDate.fromDate props.localTimezone newValue) }

/-- A fixed "current date" used to instantiate concrete states. -/
def today0 : MethodDate :=
  { year := 2024, month := 0, date := 1, hours := 0, minutes := 0, seconds := 0 }

/-- The `MM/DD/YYYY` configuration with an `onPaste` handler installed. -/
def mdyProps : Props :=
  { format := .MMDDYYYY, localTimezone := true, hasOnPaste := true }

/-- The `YYYY/MM/DD` configuration with an `onPaste` handler installed. -/
def ymdProps : Props :=
  { format := .YYYYMMDD, localTimezone := true, hasOnPaste := true }

/-- The fresh no-seed state of an `MM/DD/YYYY` picker. -/
def st0 : PickerState := getInitialState mdyProps today0 none

/-- Claim C4, counterexample: in `MM/DD/YYYY` format, typing "1" as the
first character of the month segment leaves the buffer as "1" — the claimed
buffer "01" is not produced (and after the rejected "3" the buffer is still
"1", not "01"). -/
theorem claimC4_cex :
    (onInput mdyProps st0 "1".data).value = "1".data ∧ "1".data ≠ "01".data := by
  exact ⟨by decide, by decide⟩

/-- Claim C4 (amended): in `MM/DD/YYYY` format, typing "2" as the first
character of the month segment produces buffer "02/"; typing "1" as the
first character produces buffer "1" (no zero is prepended to a first digit
of 0 or 1), and then typing "3" is rejected, leaving the buffer "1" (the
two-digit combination 13 exceeds the month range while 10-12 would append
the separator). -/
theorem claimC4 :
    (onInput mdyProps st0 "2".data).value = "02/".data
    ∧ (onInput mdyProps st0 "1".data).value = "1".data
    ∧ (onInput mdyProps (onInput mdyProps st0 "1".data) "13".data).value
        = "1".data
    ∧ (onInput mdyProps (onInput mdyProps st0 "1".data) "10".data).value
        = "10/".data := by
  refine ⟨by decide, by decide, by decide, by decide⟩

/-- Claim C3, counterexample: in `YYYY/MM/DD` format the fourth typed
character lands in the year segment, yet the typing assist appends a
separator — a transformation beyond length capping. -/
theorem claimC3_cex :
    (onInput ymdProps { st0 with value := "202".data } "2024".data).value
      = "2024/".data
    ∧ "2024/".data ≠ "2024".data := by
  exact ⟨by decide, by decide⟩

/-- Claim C5, counterexample: in `YYYY/MM/DD` format the day segment is the
third segment; typing "4" as its first character pads it to "04" but does
not append the separator, so the claimed segment text "04/" is not
produced. -/
theorem claimC5_cex :
    handleDay "2024/12/".data "2024/12/4".data 3 = "2024/12/04".data
    ∧ "2024/12/04".data ≠ "2024/12/04/".data := by
  exact ⟨by decide, by decide⟩

/-- Claim C2, counterexample: deleting the single remaining character
settles on an empty buffer with no `ParsedDate`, and the update hook still
emits the literal sentinel "invalid" on the standard change channel — the
sentinel is not restricted to non-empty buffers. -/
theorem claimC2_cex :
    (onInput mdyProps { st0 with value := "1".data } []).value = []
    ∧ (componentDidUpdate mdyProps "1".data
        (onInput mdyProps { st0 with value := "1".data } [])).1
      = [Notification.change "invalid".data] := by
  exact ⟨by decide, by decide⟩

/-- Claim C8, counterexample: deleting the trailing separator of the buffer
"0//" removes exactly one character, not two — the deletion rewrite only
fires when the new trailing character differs from the deleted one, which
fails when a separator precedes the deleted separator. -/
theorem claimC8_cex :
    (onInput mdyProps
        { st0 with value := "0//".data, invalid := true, error := true }
        "0/".data).value = "0/".data
    ∧ "0/".data.length ≠ "0//".data.length - 2 := by
  exact ⟨by decide, by decide⟩

/-- Claim C10: a calendar-overlay date selection updates only the buffer
value, the error flag, the dropdown visibility and the parsed date value;
the internal `invalid` flag (which gates the typing assist) and the stored
reference date `initialValue` are left unchanged, as is the paste marker. -/
theorem claimC10 (props : Props) (st : PickerState) (d : MethodDate) :
    (onSelect props st d).invalid = st.invalid
    ∧ (onSelect props st d).initialValue = st.initialValue
    ∧ (onSelect props st d).paste = st.paste
    ∧ (onSelect props st d).value = formatDate d props.format
    ∧ (onSelect props st d).error = false
    ∧ (onSelect props st d).visible = false
    ∧ (onSelect props st d).dateValue
        = some (MethodDate.fromDate props.localTimezone d) := by
  exact ⟨rfl, rfl, rfl, rfl, rfl, rfl, rfl⟩

/-! ## Character and digit-string lemmas -/

theorem isDigit_toNat {c : Char} (h : c.isDigit = true) :
    48 ≤ c.toNat ∧ c.toNat ≤ 57 := by
  simp only [Char.isDigit, decide_eq_true_eq, Bool.and_eq_true,
    decide_eq_true_iff] at h
  exact h

theorem isDigit_ne_minus {c : Char} (h : c.isDigit = true) : c ≠ '-' := by
  intro hc
  subst hc
  exact absurd h (by decide)

theorem isDigit_ne_slash {c : Char} (h : c.isDigit = true) : c ≠ '/' := by
  intro hc
  subst hc
  exact absurd h (by decide)

theorem digitChar10_isDigit (n : Nat) : (digitChar10 n).isDigit = true := by
  match n with
  | 0 | 1 | 2 | 3 | 4 | 5 | 6 | 7 | 8 => decide
  | _ + 9 => rfl

theorem digitChar10_toNat {n : Nat} (h : n < 10) :
    (digitChar10 n).toNat = 48 + n := by
  interval_cases n <;> decide

theorem natFromDigits_nil : natFromDigits [] = 0 := rfl

theorem natFromDigits_append_singleton (ds : JStr) (c : Char) :
    natFromDigits (ds ++ [c]) = 10 * natFromDigits ds + (c.toNat - 48) := by
  simp only [natFromDigits, List.foldl_append, List.foldl_cons, List.foldl_nil]
  omega

theorem natFromDigits_cons_zero (ds : JStr) :
    natFromDigits ('0' :: ds) = natFromDigits ds := rfl

theorem natFromDigits_replicate_zero (k : Nat) (ds : JStr) :
    natFromDigits (List.replicate k '0' ++ ds) = natFromDigits ds := by
  induction k with
  | zero => rfl
  | succ k ih => simpa [List.replicate_succ] using ih

theorem natFromDigits_lt_aux (ds : JStr) (a : Nat)
    (h : ds.all Char.isDigit = true) :
    ds.foldl (fun x c => x * 10 + (c.toNat - 48)) a < (a + 1) * 10 ^ ds.length := by
  induction ds generalizing a with
  | nil => simpa using Nat.lt_succ_self a
  | cons c cs ih =>
    simp only [List.all_cons, Bool.and_eq_true] at h
    have hc := isDigit_toNat h.1
    have step := ih (a * 10 + (c.toNat - 48)) h.2
    have hle : (a * 10 + (c.toNat - 48) + 1) * 10 ^ cs.length
        ≤ (a + 1) * 10 ^ (cs.length + 1) := by
      have : a * 10 + (c.toNat - 48) + 1 ≤ (a + 1) * 10 := by omega
      calc (a * 10 + (c.toNat - 48) + 1) * 10 ^ cs.length
          ≤ ((a + 1) * 10) * 10 ^ cs.length :=
            Nat.mul_le_mul_right _ this
        _ = (a + 1) * 10 ^ (cs.length + 1) := by ring
    simp only [List.foldl_cons, List.length_cons]
    exact Nat.lt_of_lt_of_le step hle

theorem natFromDigits_lt (ds : JStr) (h : ds.all Char.isDigit = true) :
    natFromDigits ds < 10 ^ ds.length := by
  simpa [natFromDigits] using natFromDigits_lt_aux ds 0 h

theorem natToDigitsAux_spec :
    ∀ fuel n, n < fuel →
      natToDigitsAux fuel n ≠ []
      ∧ (natToDigitsAux fuel n).all Char.isDigit = true
      ∧ natFromDigits (natToDigitsAux fuel n) = n := by
  intro fuel
  induction fuel with
  | zero => omega
  | succ fuel ih =>
    intro n hn
    by_cases h10 : n < 10
    · refine ⟨by simp [natToDigitsAux, h10], ?_, ?_⟩
      · simp [natToDigitsAux, h10, digitChar10_isDigit]
      · simp [natToDigitsAux, h10, natFromDigits, digitChar10_toNat h10]
    · have hdiv : n / 10 < fuel :=
        Nat.lt_of_lt_of_le (Nat.div_lt_self (by omega) (by omega)) (by omega)
      obtain ⟨h1, h2, h3⟩ := ih (n / 10) hdiv
      have hmod : n % 10 < 10 := Nat.mod_lt _ (by omega)
      refine ⟨by simp [natToDigitsAux, h10], ?_, ?_⟩
      · simp [natToDigitsAux, h10, List.all_append, h2, digitChar10_isDigit]
      · simp only [natToDigitsAux, h10, if_false, ite_false]
        rw [natFromDigits_append_singleton, h3, digitChar10_toNat hmod]
        omega

theorem natToDigits_ne_nil (n : Nat) : natToDigits n ≠ [] :=
  (natToDigitsAux_spec (n + 1) n (Nat.lt_succ_self n)).1

theorem natToDigits_all_digits (n : Nat) :
    (natToDigits n).all Char.isDigit = true :=
  (natToDigitsAux_spec (n + 1) n (Nat.lt_succ_self n)).2.1

theorem natFromDigits_natToDigits (n : Nat) :
    natFromDigits (natToDigits n) = n :=
  (natToDigitsAux_spec (n + 1) n (Nat.lt_succ_self n)).2.2

theorem natToDigitsAux_length :
    ∀ fuel n k, n < fuel → n < 10 ^ k → 1 ≤ k →
      (natToDigitsAux fuel n).length ≤ k := by
  intro fuel
  induction fuel with
  | zero => omega
  | succ fuel ih =>
    intro n k hn hk h1
    by_cases h10 : n < 10
    · simpa [natToDigitsAux, h10] using h1
    · have hdiv : n / 10 < fuel :=
        Nat.lt_of_lt_of_le (Nat.div_lt_self (by omega) (by omega)) (by omega)
      have hk2 : 2 ≤ k := by
        by_contra hcon
        have hk1 : k = 1 := by omega
        subst hk1
        simp at hk
        omega
      have hdivk : n / 10 < 10 ^ (k - 1) := by
        have : 10 ^ k = 10 ^ (k - 1) * 10 := by
          rw [← Nat.pow_succ]
          congr 1
          omega
        rw [Nat.div_lt_iff_lt_mul (by omega)]
        omega
      have := ih (n / 10) (k - 1) hdiv hdivk (by omega)
      simp only [natToDigitsAux, h10, if_false, ite_false, List.length_append,
        List.length_cons, List.length_nil]
      omega

theorem natToDigits_length_le {n k : Nat} (hk : n < 10 ^ k) (h1 : 1 ≤ k) :
    (natToDigits n).length ≤ k :=
  natToDigitsAux_length (n + 1) n k (Nat.lt_succ_self n) hk h1

theorem leadingDigits_of_all (ds : JStr) (h : ds.all Char.isDigit = true) :
    leadingDigits ds = ds := by
  induction ds with
  | nil => rfl
  | cons c cs ih =>
    simp only [List.all_cons, Bool.and_eq_true] at h
    simp [leadingDigits, h.1, ih h.2]

theorem parseIntJS_digits (ds : JStr) (hne : ds ≠ [])
    (h : ds.all Char.isDigit = true) :
    parseIntJS ds = some (natFromDigits ds) := by
  match ds with
  | [] => exact absurd rfl hne
  | c :: cs =>
    have hall := h
    simp only [List.all_cons, Bool.and_eq_true] at h
    have hcm : (c == '-') = false := by
      simp only [beq_eq_false_iff_ne]
      exact isDigit_ne_minus h.1
    have hld : leadingDigits (c :: cs) = c :: cs := leadingDigits_of_all _ hall
    simp only [parseIntJS, hcm, Bool.false_eq_true, if_false, ite_false, hld]
    rfl

theorem padDigits_all (w n : Nat) :
    (padDigits w n).all Char.isDigit = true := by
  simp only [padDigits, List.all_append, Bool.and_eq_true]
  constructor
  · simp only [List.all_eq_true]
    intro c hc
    rw [List.eq_of_mem_replicate hc]
    decide
  · exact natToDigits_all_digits n

theorem padDigits_ne_nil (w n : Nat) : padDigits w n ≠ [] := by
  simp only [padDigits]
  intro h
  rcases List.append_eq_nil.mp h with ⟨-, h2⟩
  exact natToDigits_ne_nil n h2

theorem padDigits_val (w n : Nat) : natFromDigits (padDigits w n) = n := by
  rw [padDigits, natFromDigits_replicate_zero, natFromDigits_natToDigits]

theorem padDigits_length {w n : Nat} (hn : n < 10 ^ w) (hw : 1 ≤ w) :
    (padDigits w n).length = w := by
  have hle := natToDigits_length_le hn hw
  simp only [padDigits, List.length_append, List.length_replicate]
  omega

theorem padDigits_no_slash (w n : Nat) : ∀ c ∈ padDigits w n, c ≠ '/' := by
  intro c hc
  have := padDigits_all w n
  simp only [List.all_eq_true] at this
  exact isDigit_ne_slash (this c hc)

theorem parseIntJS_padDigits (w n : Nat) :
    parseIntJS (padDigits w n) = some (n : Int) := by
  rw [parseIntJS_digits _ (padDigits_ne_nil w n) (padDigits_all w n),
    padDigits_val]
  rfl

/-! ## `splitSlash` lemmas -/

theorem splitSlash_ne_nil (l : JStr) : splitSlash l ≠ [] := by
  induction l with
  | nil => simp [splitSlash]
  | cons c cs ih =>
    simp only [splitSlash]
    rcases h : splitSlash cs with - | ⟨a, b⟩
    · exact absurd h ih
    · by_cases hc : c = '/' <;> simp [hc]

theorem splitSlash_no_slash (l : JStr) (h : ∀ c ∈ l, c ≠ '/') :
    splitSlash l = [l] := by
  induction l with
  | nil => rfl
  | cons c cs ih =>
    have hc : (c == '/') = false := by
      simp only [beq_eq_false_iff_ne]
      exact h c (List.mem_cons_self c cs)
    have ihs : splitSlash cs = [cs] := ih fun x hx => h x (List.mem_cons_of_mem c hx)
    simp [splitSlash, hc, ihs]

theorem splitSlash_append (l r : JStr) (h : ∀ c ∈ l, c ≠ '/') :
    splitSlash (l ++ '/' :: r) = l :: splitSlash r := by
  induction l with
  | nil => simp [splitSlash]
  | cons c cs ih =>
    have hc : (c == '/') = false := by
      simp only [beq_eq_false_iff_ne]
      exact h c (List.mem_cons_self c cs)
    have ihs : splitSlash (cs.append ('/' :: r)) = cs :: splitSlash r :=
      ih fun x hx => h x (List.mem_cons_of_mem c hx)
    simp only [List.cons_append, splitSlash, hc, Bool.false_eq_true, if_false,
      ite_false, ihs]

/-! ## Calendar lemmas -/

theorem isLeapYear_shift {y : Int} (h1 : 1 ≤ y) (h2 : y < 100) :
    isLeapYear (y + 1900) = isLeapYear y := by
  have e4 : (y + 1900) % 4 = y % 4 := by omega
  have e100 : (y + 1900) % 100 = y := by omega
  have e400 : (y + 1900) % 400 ≠ 0 := by omega
  have ey100 : y % 100 = y := by omega
  have ey400 : y % 400 ≠ 0 := by omega
  simp only [isLeapYear, e4, e100, ey100]
  have l1 : ((y + 1900) % 400 == 0) = false := by
    simp only [beq_eq_false_iff_ne]
    exact e400
  have l2 : (y % 400 == 0) = false := by
    simp only [beq_eq_false_iff_ne]
    exact ey400
  rw [l1, l2]

theorem daysInMonth_shift {y : Int} (h1 : 1 ≤ y) (h2 : y < 100) (m : Nat) :
    daysInMonth (y + 1900) m = daysInMonth y m := by
  rcases m with - | - | - | - | - | - | - | - | - | - | - | m <;>
    simp [daysInMonth, isLeapYear_shift h1 h2]

theorem daysInMonth_le_31 (y : Int) (m : Nat) : daysInMonth y m ≤ 31 := by
  rcases m with - | - | - | - | - | - | - | - | - | - | - | m <;>
    simp [daysInMonth] <;> split <;> omega

theorem daysInMonth_pos (y : Int) (m : Nat) : 1 ≤ daysInMonth y m := by
  rcases m with - | - | - | - | - | - | - | - | - | - | - | m <;>
    simp [daysInMonth] <;> split <;> omega

theorem mkDate_no_overflow {y m0 d : Int} {h mi s : Nat}
    (hm0 : 0 ≤ m0) (hm1 : m0 < 12) (hd1 : 1 ≤ d)
    (hd2 : d ≤ daysInMonth y m0.toNat) :
    mkDate y m0 d h mi s =
      { year := y, month := m0.toNat, date := d.toNat,
        hours := h, minutes := mi, seconds := s } := by
  have hdiv : m0.toNat / 12 = 0 := Nat.div_eq_of_lt (by omega)
  have hmod : m0.toNat % 12 = m0.toNat := Nat.mod_eq_of_lt (by omega)
  simp only [mkDate, hm0, if_pos, hdiv, hmod, Nat.cast_zero, add_zero]
  rw [if_neg (by omega), if_neg (by omega)]

theorem mkDate_year {y m0 d : Int} {h mi s : Nat}
    (hm0 : 0 ≤ m0) (hm1 : m0 < 12) (hd : d ≤ 31) :
    (mkDate y m0 d h mi s).year = y := by
  have hdiv : m0.toNat / 12 = 0 := Nat.div_eq_of_lt (by omega)
  have hmod : m0.toNat % 12 = m0.toNat := Nat.mod_eq_of_lt (by omega)
  simp only [mkDate, hm0, if_pos, hdiv, hmod, Nat.cast_zero, add_zero]
  split
  · next hgt =>
    split
    · next h12 =>
      exfalso
      have hm11 : m0.toNat = 11 := by
        simp only [beq_iff_eq] at h12
        omega
      rw [hm11] at hgt
      simp only [daysInMonth] at hgt
      omega
    · rfl
  · split <;> rfl

theorem create_fields {lz : Bool} {y m0 d : Int} {h mi s : Nat}
    (hy : 1 ≤ y) (hm0 : 0 ≤ m0) (hm1 : m0 < 12) (hd1 : 1 ≤ d)
    (hd2 : d ≤ daysInMonth y m0.toNat) :
    MethodDate.create lz y m0 d h mi s =
      { year := if y < 100 then y + 1900 else y, month := m0.toNat,
        date := d.toNat, hours := h, minutes := mi, seconds := s } := by
  simp only [MethodDate.create]
  by_cases h100 : y < 100
  · rw [if_pos (by simp only [Bool.and_eq_true, decide_eq_true_iff]; omega)]
    rw [mkDate_no_overflow hm0 hm1 hd1 (by rw [daysInMonth_shift hy h100]; exact hd2)]
    simp [h100]
  · rw [if_neg (by simp only [Bool.and_eq_true, decide_eq_true_iff]; omega)]
    rw [mkDate_no_overflow hm0 hm1 hd1 hd2]
    simp [h100]

/-! ## Format / parse round trip -/

theorem splitSlash_formatDate (md : MethodDate) (fmt : DateFormat) :
    splitSlash (formatDate md fmt) =
      match fmt with
      | .MMDDYYYY =>
        [padDigits 2 (md.month + 1), padDigits 2 md.date, padDigits 4 md.year.toNat]
      | .DDMMYYYY =>
        [padDigits 2 md.date, padDigits 2 (md.month + 1), padDigits 4 md.year.toNat]
      | .YYYYMMDD =>
        [padDigits 4 md.year.toNat, padDigits 2 (md.month + 1), padDigits 2 md.date] := by
  cases fmt <;>
    simp only [formatDate, List.append_assoc, List.cons_append] <;>
    rw [splitSlash_append _ _ (padDigits_no_slash _ _),
      splitSlash_append _ _ (padDigits_no_slash _ _),
      splitSlash_no_slash _ (padDigits_no_slash _ _)]

theorem formatDate_length (md : MethodDate) (fmt : DateFormat)
    (h2 : md.year ≤ 9999) (h3 : md.month ≤ 11) (hd : md.date ≤ 31) :
    (formatDate md fmt).length = 10 := by
  have l1 : (padDigits 2 (md.month + 1)).length = 2 :=
    padDigits_length (by omega) (by omega)
  have l2 : (padDigits 2 md.date).length = 2 :=
    padDigits_length (by omega) (by omega)
  have l3 : (padDigits 4 md.year.toNat).length = 4 :=
    padDigits_length (by omega) (by omega)
  cases fmt <;>
    simp [formatDate, l1, l2, l3]

theorem formatDate_ne_nil (md : MethodDate) (fmt : DateFormat) :
    formatDate md fmt ≠ [] := by
  cases fmt <;>
    simp only [formatDate, List.append_assoc, List.cons_append] <;>
    intro h <;>
    rcases List.append_eq_nil.mp h with ⟨h1, -⟩ <;>
    exact padDigits_ne_nil _ _ h1

theorem parse_formatDate (fmt : DateFormat) (lz : Bool) (iv : Option MethodDate)
    (md : MethodDate) (h1 : 1 ≤ md.year) (h2 : md.year ≤ 9999)
    (h3 : md.month ≤ 11) (h4 : 1 ≤ md.date)
    (h5 : md.date ≤ daysInMonth md.year md.month) :
    parse fmt lz iv (formatDate md fmt) =
      { year := some md.year, month := some ((md.month : Int) + 1),
        date := some ((md.date : Int)), valid := true } := by
  have hd31 : md.date ≤ 31 :=
    le_trans h5 (daysInMonth_le_31 md.year md.month)
  have hytn : ((md.year.toNat : Int)) = md.year := Int.toNat_of_nonneg (by omega)
  have hpy : parseIntJS (padDigits 4 md.year.toNat) = some md.year := by
    rw [parseIntJS_padDigits]
    rw [hytn]
  have hpm : parseIntJS (padDigits 2 (md.month + 1)) = some ((md.month : Int) + 1) := by
    rw [parseIntJS_padDigits]
    simp
  have hpd : parseIntJS (padDigits 2 md.date) = some ((md.date : Int)) := by
    rw [parseIntJS_padDigits]
  have hcreate :
      ∀ h mi s, MethodDate.create lz md.year (((md.month : Int) + 1) - 1)
          (md.date : Int) h mi s =
        { year := if md.year < 100 then md.year + 1900 else md.year,
          month := md.month, date := md.date,
          hours := h, minutes := mi, seconds := s } := by
    intro h mi s
    have : ((md.month : Int) + 1) - 1 = (md.month : Int) := by ring
    rw [this]
    rw [create_fields h1 (by omega) (by omega) (by omega)
      (by simp only [Int.toNat_natCast]; exact_mod_cast h5)]
    simp
  cases fmt <;>
  · rw [parse, splitSlash_formatDate]
    simp only [List.length_cons, List.length_nil, padTo3, beq_iff_eq]
    rw [if_neg (by omega)]
    simp only [List.getD_cons_zero, List.getD_cons_succ, hpy, hpm, hpd]
    rw [hcreate]
    split
    · simp
    · next hcond =>
      exfalso
      apply hcond
      simp only [Bool.and_eq_true, beq_iff_eq, decide_eq_true_iff, true_and]
      omega

/-! ## Bounds on values produced by the free-form parser -/

theorem monthIdx_le {w : JStr} {m : Nat} (h : monthIdx w = some m) : m ≤ 11 := by
  unfold monthIdx at h
  split at h
  · next hlt =>
    injection h with h
    omega
  · exact Option.noConfusion h

theorem fromStringAux_bounds {s : JStr} {y m0 d : Nat}
    (h : fromStringAux s = some (y, m0, d)) : y ≤ 9999 ∧ m0 ≤ 11 := by
  unfold fromStringAux at h
  split at h
  · exact absurd h (by simp)
  · next m0' hmi =>
    split at h
    · split at h
      · exact absurd h (by simp)
      · split at h
        · next ys heq =>
          split at h
          · next hys =>
            simp only [Option.some.injEq, Prod.mk.injEq] at h
            obtain ⟨hy, hm, -⟩ := h
            simp only [Bool.and_eq_true, beq_iff_eq] at hys
            constructor
            · have := natFromDigits_lt ys hys.2
              rw [hys.1] at this
              omega
            · rw [← hm]
              exact monthIdx_le hmi
          · exact absurd h (by simp)
        · exact absurd h (by simp)
    · exact absurd h (by simp)

theorem fromString_bounds {lz : Bool} {s : JStr} {md : MethodDate}
    (h : MethodDate.fromString lz s = some md) :
    1 ≤ md.year ∧ md.year ≤ 9999 ∧ md.month ≤ 11 ∧ 1 ≤ md.date
      ∧ md.date ≤ daysInMonth md.year md.month := by
  unfold MethodDate.fromString at h
  split at h
  · next y m0 d haux =>
    split at h
    · next hguard =>
      simp only [Option.some.injEq] at h
      obtain ⟨hb1, hb2⟩ := fromStringAux_bounds haux
      simp only [Bool.and_eq_true, decide_eq_true_iff] at hguard
      subst h
      refine ⟨?_, ?_, ?_, ?_, ?_⟩
      · show (1 : Int) ≤ (y : Int)
        exact_mod_cast hguard.1.1
      · show (y : Int) ≤ 9999
        exact_mod_cast hb1
      · show m0 ≤ 11
        exact hb2
      · show 1 ≤ d
        exact hguard.1.2
      · show d ≤ daysInMonth (y : Int) m0
        exact hguard.2
    · exact absurd h (by simp)
  · exact absurd h (by simp)

/-! ## Structural lemmas about the settling step of `onInput` -/

theorem onInputTail_paste (props : Props) (vis : Bool) (c : CoreOut) :
    (onInputTail props vis c).paste = c.paste := by
  simp only [onInputTail]
  split
  · split <;> rfl
  · split
    · split <;> rfl
    · rfl

theorem onInputTail_initialValue_of_short (props : Props) (vis : Bool)
    (c : CoreOut) (h : c.nv.length ≤ 11) :
    (onInputTail props vis c).initialValue = c.initialValue := by
  simp only [onInputTail]
  rw [if_neg (by omega)]
  split
  · split <;> rfl
  · rfl

theorem onInputTail_value (props : Props) (vis : Bool) (c : CoreOut)
    (h : c.nv.length ≤ 11) :
    (onInputTail props vis c).value = c.nv := by
  simp only [onInputTail]
  rw [if_neg (by omega)]
  split
  · split <;> rfl
  · rfl

theorem onInputTail_of_valid (props : Props) (vis : Bool) (c : CoreOut)
    (hle : c.nv.length ≤ 11) {y m d : Int}
    (hres : parse props.format props.localTimezone c.initialValue c.nv
      = { year := some y, month := some m, date := some d, valid := true }) :
    onInputTail props vis c =
      { value := c.nv, invalid := false, error := false,
        dateValue := some (if y < 100 then
            (MethodDate.create props.localTimezone y (m - 1) d
              (refHours c.initialValue) (refMinutes c.initialValue)
              (refSeconds c.initialValue)).setFullYear y (m - 1) d
          else
            MethodDate.create props.localTimezone y (m - 1) d
              (refHours c.initialValue) (refMinutes c.initialValue)
              (refSeconds c.initialValue)),
        initialValue := c.initialValue, visible := vis, paste := c.paste } := by
  simp only [onInputTail]
  rw [if_neg (by omega), hres]
  rfl

/-- Claim C6: when a paste event delivers a string that free-form parses to
a calendar-valid date, the canonical UTC value is delivered exactly once
via the distinct paste-notification channel for that edit, no standard
change notification is emitted for the same edit, and the paste marker is
consumed and cleared after processing. -/
theorem claimC6 (props : Props) (st : PickerState) (raw : JStr) (md : MethodDate)
    (hcb : props.hasOnPaste = true) (hp : st.paste = JsVal.tt)
    (hs : MethodDate.fromString props.localTimezone raw = some md) :
    componentDidUpdate props st.value (onInput props st raw)
      = ([Notification.pasteOut md.toUTCString],
         { onInput props st raw with paste := JsVal.ff }) := by
  obtain ⟨h1, h2, h3, h4, h5⟩ := fromString_bounds hs
  have hd31 : md.date ≤ 31 := le_trans h5 (daysInMonth_le_31 _ _)
  have hcore : onInputCore props st raw =
      { nv := formatDate md props.format, invalid := false,
        initialValue := some md, dateValue := some md.copy,
        paste := JsVal.str md.toUTCString } := by
    simp only [onInputCore, hp, jsTruthy, if_true, hs]
  have hparse : parse props.format props.localTimezone
      (onInputCore props st raw).initialValue (onInputCore props st raw).nv
      = { year := some md.year, month := some ((md.month : Int) + 1),
          date := some ((md.date : Int)), valid := true } := by
    rw [hcore]
    exact parse_formatDate _ _ _ _ h1 h2 h3 (by exact_mod_cast h4) h5
  have hlen : (onInputCore props st raw).nv.length ≤ 11 := by
    rw [hcore]
    rw [formatDate_length md props.format h2 h3 hd31]
    omega
  have htail := onInputTail_of_valid props st.visible (onInputCore props st raw)
    hlen hparse
  rw [onInput, htail, hcore]
  simp [componentDidUpdate, jsTruthy, hcb]

/-- Claim C1: for every buffer whose three separator-split components
(exposed as the `year`/`month`/`date` fields of the `parse` result) pass
the independent bound checks (year ≥ 1, month 1-12, day 1-31), `parse`
returns `valid = true` only if reconstructing a calendar date from
(year, month−1, day) preserves both the month and the day; in particular
`parse` on "02/30/2024" under MM/DD/YYYY returns `valid = false` while
"04/30/2024" returns `valid = true`. -/
theorem claimC1 :
    (∀ (fmt : DateFormat) (lz : Bool) (iv : Option MethodDate) (v : JStr)
        (y m d : Int),
      (parse fmt lz iv v).year = some y →
      (parse fmt lz iv v).month = some m →
      (parse fmt lz iv v).date = some d →
      1 ≤ y → 1 ≤ m → m ≤ 12 → 1 ≤ d → d ≤ 31 →
      (parse fmt lz iv v).valid = true →
      ((MethodDate.create lz y (m - 1) d (refHours iv) (refMinutes iv)
          (refSeconds iv)).month : Int) + 1 = m
        ∧ ((MethodDate.create lz y (m - 1) d (refHours iv) (refMinutes iv)
            (refSeconds iv)).date : Int) = d)
    ∧ (parse .MMDDYYYY true (some today0) "02/30/2024".data).valid = false
    ∧ (parse .MMDDYYYY true (some today0) "04/30/2024".data).valid = true := by
  refine ⟨?_, by decide, by decide⟩
  intro fmt lz iv v y m d hY hM hD hb1 hb2 hb3 hb4 hb5 hvalid
  simp only [parse] at hY hM hD hvalid
  rw [hY, hM, hD] at hvalid
  split at hvalid
  · simp only [Bool.not_eq_eq_eq_not, Bool.not_true, Bool.or_eq_false_iff,
      bne_eq_false_iff_eq] at hvalid
    exact ⟨hvalid.1.symm, hvalid.2.symm⟩
  · exact absurd hvalid (by simp)

/-- Claim C1, witness: instantiation at "04/30/2024" in MM/DD/YYYY format. -/
theorem claimC1_witness :
    ((MethodDate.create true 2024 (4 - 1) 30 (refHours (some today0))
        (refMinutes (some today0)) (refSeconds (some today0))).month : Int) + 1 = 4
    ∧ ((MethodDate.create true 2024 (4 - 1) 30 (refHours (some today0))
        (refMinutes (some today0)) (refSeconds (some today0))).date : Int) = 30 :=
  claimC1.1 .MMDDYYYY true (some today0) "04/30/2024".data 2024 4 30
    (by decide) (by decide) (by decide) (by decide) (by decide) (by decide)
    (by decide) (by decide) (by decide)

/-- Claim C6, witness: pasting "March 3, 2024" into a fresh MM/DD/YYYY
picker routes exactly one notification through the paste channel and
clears the marker. -/
theorem claimC6_witness :
    componentDidUpdate mdyProps ({ st0 with paste := JsVal.tt }).value
        (onInput mdyProps { st0 with paste := JsVal.tt } "March 3, 2024".data)
      = ([Notification.pasteOut
            ({ year := 2024, month := 2, date := 3, hours := 0, minutes := 0,
               seconds := 0 : MethodDate }).toUTCString],
         { onInput mdyProps { st0 with paste := JsVal.tt } "March 3, 2024".data
             with paste := JsVal.ff }) :=
  claimC6 mdyProps { st0 with paste := JsVal.tt } "March 3, 2024".data
    { year := 2024, month := 2, date := 3, hours := 0, minutes := 0, seconds := 0 }
    rfl rfl (by decide)

/-- Claim C2 (amended): after an edit settles, if the buffer value changed
or a paste was processed then exactly one notification is emitted — the
canonical UTC date (on the paste channel when the paste marker holds a
string and a paste handler is installed, otherwise on the standard change
channel) when a `ParsedDate` is present, and the literal sentinel "invalid"
on the standard change channel whenever `ParsedDate` is absent, including
when the buffer is empty; if the buffer did not change and no paste was
processed, no notification is emitted. -/
theorem claimC2 (props : Props) (oldValue : JStr) (st : PickerState) :
    (oldValue = st.value → jsTruthy st.paste = false →
      (componentDidUpdate props oldValue st).1 = [])
    ∧ (oldValue ≠ st.value ∨ jsTruthy st.paste = true →
        (st.dateValue = none →
          (componentDidUpdate props oldValue st).1
            = [Notification.change "invalid".data])
        ∧ ∀ dv, st.dateValue = some dv →
            ∃ n, (componentDidUpdate props oldValue st).1 = [n]
              ∧ (n = Notification.change dv.toUTCString
                 ∨ ∃ s, st.paste = JsVal.str s ∧ n = Notification.pasteOut s)) := by
  constructor
  · intro heq hpf
    rw [componentDidUpdate, if_neg]
    simp [heq, hpf]
  · intro hchanged
    have hcond : (decide (oldValue ≠ st.value) || jsTruthy st.paste) = true := by
      rcases hchanged with h | h
      · simp [h]
      · simp [h]
    constructor
    · intro hdv
      rw [componentDidUpdate, if_pos hcond, hdv]
    · intro dv hdv
      rw [componentDidUpdate, if_pos hcond, hdv]
      rcases hpaste : st.paste with - | - | - | s
      · exact ⟨_, rfl, Or.inl rfl⟩
      · exact ⟨_, rfl, Or.inl rfl⟩
      · exact ⟨_, rfl, Or.inl rfl⟩
      · by_cases hcb : props.hasOnPaste = true
        · rw [hcb]
          exact ⟨_, rfl, Or.inr ⟨s, rfl, rfl⟩⟩
        · rw [Bool.not_eq_true] at hcb
          rw [hcb]
          exact ⟨_, rfl, Or.inl rfl⟩

/-- Claim C2, witness: emission facts at a concrete changed state with and
without a parsed date. -/
theorem claimC2_witness :
    (componentDidUpdate mdyProps "1".data
        { st0 with value := "02/".data }).1
      = [Notification.change "invalid".data] :=
  ((claimC2 mdyProps "1".data { st0 with value := "02/".data }).2
    (Or.inl (by decide))).1 rfl

/-- Claim C3 (amended): in `MM/DD/YYYY` and `DD/MM/YYYY` formats the year
segment (the characters arriving at buffer lengths 7-10) receives no
transformation from the typing assist; in `YYYY/MM/DD` format the first
three year characters receive none either, but the fourth year character
triggers automatic separator insertion.  Beyond ten characters the buffer
is capped. -/
theorem claimC3 :
    (∀ z v : JStr, 7 ≤ v.length → v.length ≤ 10 →
      handleTyping .MMDDYYYY z v = v)
    ∧ (∀ z v : JStr, 7 ≤ v.length → v.length ≤ 10 →
        handleTyping .DDMMYYYY z v = v)
    ∧ (∀ z v : JStr, v.length ≤ 3 → handleTyping .YYYYMMDD z v = v)
    ∧ (∀ z v : JStr, v.length = 4 → handleTyping .YYYYMMDD z v = v ++ ['/'])
    ∧ (∀ (fmt : DateFormat) (z v : JStr), 10 < v.length →
        handleTyping fmt z v = v.take 10) := by
  refine ⟨?_, ?_, ?_, ?_, ?_⟩
  · intro z v h1 h2
    rw [handleTyping]
    rw [if_neg (by simp only [beq_iff_eq]; omega),
      if_neg (by simp only [beq_iff_eq]; omega),
      if_neg (by simp only [beq_iff_eq]; omega),
      if_neg (by simp only [beq_iff_eq]; omega),
      if_neg (by omega)]
  · intro z v h1 h2
    rw [handleTyping]
    rw [if_neg (by simp only [beq_iff_eq]; omega),
      if_neg (by simp only [beq_iff_eq]; omega),
      if_neg (by simp only [beq_iff_eq]; omega),
      if_neg (by simp only [beq_iff_eq]; omega),
      if_neg (by omega)]
  · intro z v h1
    rw [handleTyping]
    rw [if_neg (by simp only [beq_iff_eq]; omega),
      if_neg (by simp only [beq_iff_eq]; omega),
      if_neg (by simp only [beq_iff_eq]; omega),
      if_neg (by simp only [beq_iff_eq]; omega),
      if_neg (by omega)]
  · intro z v h1
    rw [handleTyping]
    rw [if_pos (by simp only [beq_iff_eq]; omega)]
  · intro fmt z v h1
    cases fmt <;>
    · rw [handleTyping]
      rw [if_neg (by simp only [beq_iff_eq]; omega),
        if_neg (by simp only [beq_iff_eq]; omega),
        if_neg (by simp only [beq_iff_eq]; omega),
        if_neg (by simp only [beq_iff_eq]; omega),
        if_pos (by omega)]

/-- Claim C3, witness: concrete instantiations — a year character at
length 8 in MM/DD/YYYY is untouched, and the fourth year character in
YYYY/MM/DD receives the separator. -/
theorem claimC3_witness :
    handleTyping .MMDDYYYY "01/02/202".data "01/02/2024".data
        = "01/02/2024".data
    ∧ handleTyping .YYYYMMDD "202".data "2024".data = "2024".data ++ ['/'] :=
  ⟨(claimC3.1 "01/02/202".data "01/02/2024".data (by decide) (by decide)),
   (claimC3.2.2.2.1 "202".data "2024".data (by decide))⟩

/-! ## Index lemmas for the typing assist -/

theorem jsCharAt_append_last (p : JStr) (c : Char) :
    jsCharAt (p ++ [c]) (((p ++ [c]).length : Int) - 1) = some c := by
  rw [jsCharAt, if_neg (by simp)]
  have h1 : ((((p ++ [c]).length : Nat) : Int) - 1).toNat = p.length := by
    simp only [List.length_append, List.length_cons, List.length_nil]
    omega
  rw [h1]
  exact List.get?_concat_length p c

theorem jsCharAt_append_penult (p : JStr) (c : Char) (hp : p ≠ []) :
    jsCharAt (p ++ [c]) (((p ++ [c]).length : Int) - 2) = p.getLast? := by
  have hlen : 1 ≤ p.length := List.length_pos.mpr hp
  rw [jsCharAt, if_neg (by simp; omega)]
  have h1 : ((((p ++ [c]).length : Nat) : Int) - 2).toNat = p.length - 1 := by
    simp only [List.length_append, List.length_cons, List.length_nil]
    omega
  rw [h1]
  rw [List.get?_eq_getElem?, List.getElem?_append_left (by omega)]
  exact (List.getLast?_eq_getElem? p).symm

theorem replaceAt_append_last (p : JStr) (c : Char) (r : JStr) :
    replaceAt (p ++ [c]) (((p ++ [c]).length : Int) - 1) r = p ++ r ++ [c] := by
  rw [replaceAt]
  have h1 : ((((p ++ [c]).length : Nat) : Int) - 1).toNat = p.length := by
    simp only [List.length_append, List.length_cons, List.length_nil]
    omega
  rw [h1, List.take_left, List.drop_left]

theorem parseIntJS_digitChar10 {n : Nat} (h : n < 10) :
    parseIntJS [digitChar10 n] = some (n : Int) := by
  have ht : (digitChar10 n).toNat - 48 = n := by
    rw [digitChar10_toNat h]
    omega
  rw [parseIntJS_digits _ (by simp) (by simp [digitChar10_isDigit])]
  simp [natFromDigits, ht]

theorem parseIntAt_append_last (p : JStr) (c : Char) :
    parseIntAt (p ++ [c]) (((p ++ [c]).length : Int) - 1) = parseIntJS [c] := by
  rw [parseIntAt, jsCharAt_append_last]

/-- Claim C5 (amended): when the first character typed into a month or day
segment is a digit too large to start a two-digit in-range value (digit > 1
for month, digit > 3 for day), the result keeps that digit left-padded with
"0"; the separator is appended after it for segments in 1st or 2nd position,
while for a day segment in 3rd position (YYYY/MM/DD) the padded digit is
kept with no separator appended. -/
theorem claimC5 :
    (∀ (z : JStr) (n : Nat), 2 ≤ n → n ≤ 9 →
      handleMonth z [digitChar10 n] 1 = ['0', digitChar10 n, '/'])
    ∧ (∀ (z p : JStr) (n : Nat), 2 ≤ n → n ≤ 9 → p.getLast? = some '/' →
        handleMonth z (p ++ [digitChar10 n]) 2 = p ++ ['0', digitChar10 n, '/'])
    ∧ (∀ (z : JStr) (n : Nat), 4 ≤ n → n ≤ 9 →
        handleDay z [digitChar10 n] 1 = ['0', digitChar10 n, '/'])
    ∧ (∀ (z p : JStr) (n : Nat), 4 ≤ n → n ≤ 9 → p.getLast? = some '/' →
        handleDay z (p ++ [digitChar10 n]) 2 = p ++ ['0', digitChar10 n, '/'])
    ∧ (∀ (z p : JStr) (n : Nat), 4 ≤ n → n ≤ 9 → p.getLast? = some '/' →
        handleDay z (p ++ [digitChar10 n]) 3 = p ++ ['0', digitChar10 n]) := by
  have hsingle : ∀ (n : Nat), n ≤ 9 →
      parseIntAt [digitChar10 n] ((([digitChar10 n] : JStr).length : Int) - 1)
        = some (n : Int) := by
    intro n h9
    have : ([digitChar10 n] : JStr) = ([] : JStr) ++ [digitChar10 n] := by simp
    rw [this, parseIntAt_append_last, parseIntJS_digitChar10 (by omega)]
  have hintToStr : ∀ (n : Nat), n ≤ 9 → intToStr (n : Int) = [digitChar10 n] := by
    intro n h9
    rw [intToStr, if_neg (by omega)]
    simp only [Int.toNat_natCast]
    rw [natToDigits, natToDigitsAux]
    rw [if_pos (by omega)]
  refine ⟨?_, ?_, ?_, ?_, ?_⟩
  · intro z n h2 h9
    have h1n : (1 : Int) < (n : Int) := by omega
    simp only [handleMonth]
    rw [hsingle n h9]
    simp [h1n, hintToStr n h9]
  · intro z p n h2 h9 hp
    have hpne : p ≠ [] := by
      intro h
      rw [h] at hp
      exact Option.noConfusion hp
    have h1n : (1 : Int) < (n : Int) := by omega
    simp only [handleMonth]
    rw [parseIntAt_append_last, parseIntJS_digitChar10 (by omega),
      jsCharAt_append_penult _ _ hpne, hp, replaceAt_append_last]
    simp [h1n, List.append_assoc]
  · intro z n h4 h9
    have h3n : (3 : Int) < (n : Int) := by omega
    simp only [handleDay]
    rw [hsingle n h9]
    simp [h3n, hintToStr n h9]
  · intro z p n h4 h9 hp
    have hpne : p ≠ [] := by
      intro h
      rw [h] at hp
      exact Option.noConfusion hp
    have h3n : (3 : Int) < (n : Int) := by omega
    simp only [handleDay]
    rw [parseIntAt_append_last, parseIntJS_digitChar10 (by omega),
      jsCharAt_append_penult _ _ hpne, hp, replaceAt_append_last]
    simp [h3n, List.append_assoc]
  · intro z p n h4 h9 hp
    have hpne : p ≠ [] := by
      intro h
      rw [h] at hp
      exact Option.noConfusion hp
    have h3n : (3 : Int) < (n : Int) := by omega
    simp only [handleDay]
    rw [parseIntAt_append_last, parseIntJS_digitChar10 (by omega),
      jsCharAt_append_penult _ _ hpne, hp, replaceAt_append_last]
    simp [h3n, List.append_assoc]

/-- Claim C5, witness: month first digit 2 at 1st position, and day first
digit 4 at 3rd position (YYYY/MM/DD). -/
theorem claimC5_witness :
    handleMonth [] [digitChar10 2] 1 = ['0', digitChar10 2, '/']
    ∧ handleDay "2024/12/".data ("2024/12/".data ++ [digitChar10 4]) 3
        = "2024/12/".data ++ ['0', digitChar10 4] :=
  ⟨claimC5.1 [] 2 (by decide) (by decide),
   claimC5.2.2.2.2 "2024/12/".data "2024/12/".data 4 (by decide) (by decide)
     (by decide)⟩

/-- A valid `parse` result carries three in-range components. -/
theorem parse_valid_components (fmt : DateFormat) (lz : Bool)
    (iv : Option MethodDate) (v : JStr)
    (hval : (parse fmt lz iv v).valid = true) :
    ∃ y m d : Int,
      (parse fmt lz iv v).year = some y
      ∧ (parse fmt lz iv v).month = some m
      ∧ (parse fmt lz iv v).date = some d
      ∧ 1 ≤ y ∧ 1 ≤ m ∧ m ≤ 12 ∧ 1 ≤ d ∧ d ≤ 31 := by
  have hval2 := hval
  simp only [parse] at hval2
  split at hval2
  · next hcond =>
    split at hval2
    · next y m d hY hM hD =>
      rw [hY, hM, hD] at hcond
      simp only [Bool.and_eq_true, decide_eq_true_iff] at hcond
      obtain ⟨⟨⟨-, hy⟩, hm1, hm2⟩, hd1, hd2⟩ := hcond
      exact ⟨y, m, d, hY, hM, hD, hy, hm1, hm2, hd1, hd2⟩
    · exact absurd hval2 (by simp)
  · exact absurd hval2 (by simp)

/-- The settling step on a short buffer whose parse is valid: field-level
variant of `onInputTail_of_valid`. -/
theorem onInputTail_of_valid_fields (props : Props) (vis : Bool) (c : CoreOut)
    (hle : c.nv.length ≤ 11) {y m d : Int}
    (hY : (parse props.format props.localTimezone c.initialValue c.nv).year
      = some y)
    (hM : (parse props.format props.localTimezone c.initialValue c.nv).month
      = some m)
    (hD : (parse props.format props.localTimezone c.initialValue c.nv).date
      = some d)
    (hV : (parse props.format props.localTimezone c.initialValue c.nv).valid
      = true) :
    onInputTail props vis c =
      { value := c.nv, invalid := false, error := false,
        dateValue := some (if y < 100 then
            (MethodDate.create props.localTimezone y (m - 1) d
              (refHours c.initialValue) (refMinutes c.initialValue)
              (refSeconds c.initialValue)).setFullYear y (m - 1) d
          else
            MethodDate.create props.localTimezone y (m - 1) d
              (refHours c.initialValue) (refMinutes c.initialValue)
              (refSeconds c.initialValue)),
        initialValue := c.initialValue, visible := vis, paste := c.paste } := by
  simp only [onInputTail]
  rw [if_neg (by omega), hV, hY, hM, hD]
  rfl

/-! ## Length bounds for the edit classifier -/

theorem parseIntAt_bound {s : JStr} {i : Int} {n : Int}
    (h : parseIntAt s i = some n) : 0 ≤ n ∧ n ≤ 9 := by
  rw [parseIntAt] at h
  rcases hc : jsCharAt s i with - | c <;> rw [hc] at h
  · exact Option.noConfusion h
  · by_cases hd : c.isDigit = true
    · have hcm : (c == '-') = false := by
        simp only [beq_eq_false_iff_ne]
        exact isDigit_ne_minus hd
      have ht := isDigit_toNat hd
      simp only [parseIntJS, hcm, Bool.false_eq_true, if_false, ite_false,
        leadingDigits, hd, if_true, ite_true, Option.some.injEq] at h
      have hv : natFromDigits [c] = c.toNat - 48 := by
        simp [natFromDigits]
      rw [hv] at h
      omega
    · rw [Bool.not_eq_true] at hd
      by_cases hm : (c == '-') = true
      · simp only [parseIntJS, hm, if_true, ite_true, leadingDigits] at h
        exact Option.noConfusion h
      · rw [Bool.not_eq_true] at hm
        simp only [parseIntJS, hm, Bool.false_eq_true, if_false, ite_false,
          leadingDigits, hd] at h
        exact Option.noConfusion h

theorem intToStr_length_one {n : Int} (h0 : 0 ≤ n) (h9 : n ≤ 9) :
    (intToStr n).length = 1 := by
  rw [intToStr, if_neg (by omega)]
  rw [natToDigits, natToDigitsAux, if_pos (by omega)]
  rfl

theorem replaceAt_length (v : JStr) (i : Int) (r : JStr) :
    (replaceAt v i r).length ≤ v.length + r.length := by
  simp only [replaceAt, List.length_append, List.length_take, List.length_drop]
  omega

theorem handleMonth_length (z v : JStr) (pos : Int) :
    (handleMonth z v pos).length ≤ max (v.length + 2) z.length := by
  have hs : (if pos < 3 then (['/'] : JStr) else []).length ≤ 1 := by
    split <;> simp
  simp only [handleMonth]
  split
  · split
    · next n heq =>
      have hb := parseIntAt_bound heq
      have hvne : 1 ≤ v.length := by
        rcases v with - | ⟨a, as⟩
        · rw [parseIntAt, jsCharAt] at heq
          simp at heq
        · simp
      split
      · split
        · have h1 := replaceAt_length v ((v.length : Int) - 1) ['0']
          simp only [List.length_append, List.length_cons, List.length_nil]
            at h1 ⊢
          omega
        · have h1 := intToStr_length_one hb.1 hb.2
          simp only [List.length_append, List.length_cons]
          omega
      · omega
    · omega
  · split
    · simp only [List.length_append]
      omega
    · split
      · simp only [List.length_append]
        omega
      · omega

theorem handleDay_length (z v : JStr) (pos : Int) :
    (handleDay z v pos).length ≤ max (v.length + 2) z.length := by
  have hs : (if pos < 3 then (['/'] : JStr) else []).length ≤ 1 := by
    split <;> simp
  simp only [handleDay]
  split
  · split
    · next n heq =>
      have hb := parseIntAt_bound heq
      have hvne : 1 ≤ v.length := by
        rcases v with - | ⟨a, as⟩
        · rw [parseIntAt, jsCharAt] at heq
          simp at heq
        · simp
      split
      · split
        · have h1 := replaceAt_length v ((v.length : Int) - 1) ['0']
          simp only [List.length_append, List.length_cons, List.length_nil]
            at h1 ⊢
          omega
        · have h1 := intToStr_length_one hb.1 hb.2
          simp only [List.length_append, List.length_cons]
          omega
      · omega
    · omega
  · split
    · simp only [List.length_append]
      omega
    · split
      · simp only [List.length_append]
        omega
      · omega

theorem handleTyping_length (fmt : DateFormat) (z v : JStr)
    (hz : z.length ≤ 10) (hv : v.length ≤ 10) :
    (handleTyping fmt z v).length ≤ 11 := by
  have hm := handleMonth_length z v
  have hd := handleDay_length z v
  cases fmt <;>
  · simp only [handleTyping]
    split
    · next hc =>
      simp only [beq_iff_eq] at hc
      first
        | (simp only [List.length_append, List.length_cons, List.length_nil]
           omega)
        | (have hmx := hm 1; omega)
        | (have hdx := hd 1; omega)
    · split
      · next hc =>
        simp only [beq_iff_eq] at hc
        first
          | (have hmx := hm 1; omega)
          | (have hmx := hm 2; omega)
          | (have hdx := hd 1; omega)
          | (have hdx := hd 2; omega)
      · split
        · next hc =>
          simp only [beq_iff_eq] at hc
          first
            | (have hmx := hm 1; omega)
            | (have hmx := hm 2; omega)
            | (have hdx := hd 1; omega)
            | (have hdx := hd 2; omega)
        · split
          · next hc =>
            simp only [beq_iff_eq] at hc
            first
              | (have hmx := hm 2; omega)
              | (have hdx := hd 2; omega)
              | (have hdx := hd 3; omega)
          · split
            · simp only [List.length_take]
              omega
            · omega

theorem handleDeletion_le (z v : JStr) :
    (handleDeletion z v).length ≤ v.length := by
  rw [handleDeletion]
  split
  · rw [jsSubstr0]
    split
    · simp
    · simp only [List.length_take]
      omega
  · omega

theorem onInputCore_no_paste (props : Props) (st : PickerState) (raw : JStr)
    (hp : st.paste = JsVal.ff) :
    (onInputCore props st raw).initialValue = st.initialValue
    ∧ (onInputCore props st raw).paste = st.paste := by
  constructor <;>
  · simp only [onInputCore, hp, jsTruthy, Bool.false_eq_true, if_false,
      ite_false]
    split <;>
      first
        | rfl
        | (split <;>
            first
              | rfl
              | (split <;>
                  first
                    | rfl
                    | (split <;> rfl)))

theorem onInputCore_nv_le (props : Props) (st : PickerState) (raw : JStr)
    (hp : st.paste = JsVal.ff) (hraw : raw.length ≤ 11) :
    (onInputCore props st raw).nv.length ≤ 11 := by
  simp only [onInputCore, hp, jsTruthy, Bool.false_eq_true, if_false,
    ite_false]
  split
  · split
    · split
      · split
        · have h := handleDeletion_le st.value raw
          show (handleDeletion st.value raw).length ≤ 11
          omega
        · exact hraw
      · exact hraw
    · exact hraw
  · next hgt =>
    split
    · next h10 =>
      split
      · exact hraw
      · split
        · exact hraw
        · show (handleTyping props.format st.value raw).length ≤ 11
          exact handleTyping_length props.format st.value raw (by omega) h10
    · split
      · exact hraw
      · show st.value.length ≤ 11
        omega

/-- Claim C7: for every edit (not a paste, raw input within the length
budget) whose settled buffer parses valid with year component below 100,
the resulting `ParsedDate` carries exactly that year: after construction
the full year field is explicitly re-set to undo the century assumption
of the calendar API. -/
theorem claimC7 (props : Props) (st : PickerState) (raw : JStr) (y : Int)
    (hp : st.paste = JsVal.ff) (hraw : raw.length ≤ 11)
    (hvalid : (parse props.format props.localTimezone st.initialValue
        ((onInput props st raw).value)).valid = true)
    (hyear : (parse props.format props.localTimezone st.initialValue
        ((onInput props st raw).value)).year = some y)
    (h100 : y < 100) :
    ∃ md, (onInput props st raw).dateValue = some md ∧ md.year = y := by
  obtain ⟨hiv, -⟩ := onInputCore_no_paste props st raw hp
  have hnv := onInputCore_nv_le props st raw hp hraw
  have hval : (onInput props st raw).value = (onInputCore props st raw).nv :=
    onInputTail_value props st.visible _ hnv
  rw [hval, ← hiv] at hvalid hyear
  obtain ⟨y', m, d, hY, hM, hD, hb1, hb2, hb3, hb4, hb5⟩ :=
    parse_valid_components _ _ _ _ hvalid
  rw [hY] at hyear
  injection hyear with hyy
  subst hyy
  have htail := onInputTail_of_valid_fields props st.visible
    (onInputCore props st raw) hnv hY hM hD hvalid
  refine ⟨(MethodDate.create props.localTimezone y' (m - 1) d
      (refHours (onInputCore props st raw).initialValue)
      (refMinutes (onInputCore props st raw).initialValue)
      (refSeconds (onInputCore props st raw).initialValue)).setFullYear
        y' (m - 1) d, ?_, ?_⟩
  · rw [show onInput props st raw
        = onInputTail props st.visible (onInputCore props st raw) from rfl,
      htail]
    rw [if_pos h100]
  · rw [MethodDate.setFullYear]
    exact mkDate_year (by omega) (by omega) (by omega)

/-- Claim C7, witness: typing "01/02/45" into a fresh MM/DD/YYYY picker
yields a `ParsedDate` with year exactly 45. -/
theorem claimC7_witness :
    ∃ md, (onInput mdyProps st0 "01/02/45".data).dateValue = some md
      ∧ md.year = 45 :=
  claimC7 mdyProps st0 "01/02/45".data 45 rfl (by decide) (by decide)
    (by decide) (by decide)

theorem parse_nil_not_valid (fmt : DateFormat) (lz : Bool)
    (iv : Option MethodDate) :
    (parse fmt lz iv []).valid = false := by
  cases fmt <;> rfl

/-- Claim C9: the empty buffer is never an error state — with no initial
seed, and after any edit that settles on an empty buffer, the invalid flag
is false and no `ParsedDate` is present. -/
theorem claimC9 :
    (∀ (props : Props) (today : MethodDate),
      (getInitialState props today none).value = []
      ∧ (getInitialState props today none).invalid = false
      ∧ (getInitialState props today none).dateValue = none)
    ∧ (∀ (props : Props) (st : PickerState) (raw : JStr),
        (onInput props st raw).value = [] →
        (onInput props st raw).invalid = false
        ∧ (onInput props st raw).dateValue = none) := by
  constructor
  · intro props today
    exact ⟨rfl, rfl, rfl⟩
  · intro props st raw hval
    by_cases hbig : 11 < (onInputCore props st raw).nv.length
    · exfalso
      rw [show onInput props st raw
          = onInputTail props st.visible (onInputCore props st raw) from rfl]
        at hval
      simp only [onInputTail] at hval
      rw [if_pos hbig] at hval
      rcases hfs : MethodDate.fromString props.localTimezone
          (onInputCore props st raw).nv with - | d <;> rw [hfs] at hval
      · have h0 : (onInputCore props st raw).nv = [] := hval
        rw [h0] at hbig
        simp at hbig
      · exact formatDate_ne_nil d props.format hval
    · push_neg at hbig
      have hv := onInputTail_value props st.visible (onInputCore props st raw)
        hbig
      rw [show onInput props st raw
          = onInputTail props st.visible (onInputCore props st raw) from rfl]
        at hval ⊢
      rw [hv] at hval
      have heq : onInputTail props st.visible (onInputCore props st raw) =
          { value := (onInputCore props st raw).nv, invalid := false,
            error := false, dateValue := none,
            initialValue := (onInputCore props st raw).initialValue,
            visible := st.visible, paste := (onInputCore props st raw).paste } := by
        simp only [onInputTail]
        rw [hval, if_neg (by decide), parse_nil_not_valid]
        rfl
      rw [heq]
      exact ⟨rfl, rfl⟩

/-- Claim C9, witness: deleting the only character settles on the empty
buffer with the invalid flag clear and no parsed date. -/
theorem claimC9_witness :
    (onInput mdyProps { st0 with value := "1".data } []).invalid = false
    ∧ (onInput mdyProps { st0 with value := "1".data } []).dateValue = none :=
  claimC9.2 mdyProps { st0 with value := "1".data } [] (by decide)

theorem jsCharAt_last (l : JStr) (hl : l ≠ []) :
    jsCharAt l ((l.length : Int) - 1) = l.getLast? := by
  conv_lhs => rw [← List.dropLast_append_getLast hl]
  rw [jsCharAt_append_last, List.getLast?_eq_getLast l hl]

theorem jsSubstr0_dropLast (l : JStr) :
    jsSubstr0 l ((l.length : Int) - 1) = l.dropLast := by
  rw [jsSubstr0]
  split
  · next h =>
    have h0 : l.length ≤ 1 := by omega
    have := List.length_dropLast l
    symm
    apply List.eq_nil_of_length_eq_zero
    omega
  · next h =>
    rw [List.dropLast_eq_take]
    congr 1
    omega

theorem onInputCore_nv_del (props : Props) (st : PickerState) (raw : JStr)
    (hp : st.paste = JsVal.ff) (hle : raw.length ≤ st.value.length) :
    (onInputCore props st raw).nv.length ≤ raw.length := by
  simp only [onInputCore, hp, jsTruthy, Bool.false_eq_true, if_false,
    ite_false]
  rw [if_pos hle]
  split
  · split
    · split
      · show (handleDeletion st.value raw).length ≤ raw.length
        exact handleDeletion_le st.value raw
      · exact Nat.le_refl _
    · exact Nat.le_refl _
  · exact Nat.le_refl _

/-- Claim C8 (amended): for every previous buffer, a single-character end
deletion never yields an accepted buffer longer than the previous one; and
when the deleted character was the separator and the character that becomes
trailing is not itself a separator (within the ten-character buffer budget),
exactly two characters are removed in total — the separator and the digit
that became trailing.  (When the previous buffer ends in two separators, or
is the lone separator, only the one character is removed.) -/
theorem claimC8 :
    (∀ (props : Props) (st : PickerState), st.paste = JsVal.ff →
      (onInput props st st.value.dropLast).value.length ≤ st.value.length)
    ∧ (∀ (props : Props) (st : PickerState) (c : Char), st.paste = JsVal.ff →
        st.value.length ≤ 10 → st.value.getLast? = some '/' →
        st.value.dropLast.getLast? = some c → c ≠ '/' →
        (onInput props st st.value.dropLast).value
          = st.value.dropLast.dropLast) := by
  constructor
  · intro props st hp
    have hdl : st.value.dropLast.length = st.value.length - 1 :=
      List.length_dropLast st.value
    have hle : st.value.dropLast.length ≤ st.value.length := by omega
    have h1 := onInputCore_nv_del props st st.value.dropLast hp hle
    by_cases hbig : 11 < (onInputCore props st st.value.dropLast).nv.length
    · rw [show onInput props st st.value.dropLast = onInputTail props
          st.visible (onInputCore props st st.value.dropLast) from rfl]
      simp only [onInputTail]
      rw [if_pos hbig]
      rcases hfs : MethodDate.fromString props.localTimezone
          (onInputCore props st st.value.dropLast).nv with - | d
      · show (onInputCore props st st.value.dropLast).nv.length
          ≤ st.value.length
        omega
      · obtain ⟨b1, b2, b3, b4, b5⟩ := fromString_bounds hfs
        have hd31 : d.date ≤ 31 := le_trans b5 (daysInMonth_le_31 _ _)
        show (formatDate d props.format).length ≤ st.value.length
        rw [formatDate_length d props.format b2 b3 hd31]
        omega
    · push_neg at hbig
      rw [show onInput props st st.value.dropLast = onInputTail props
          st.visible (onInputCore props st st.value.dropLast) from rfl,
        onInputTail_value _ _ _ hbig]
      omega
  · intro props st c hp h10 hlast hlast2 hcslash
    have hne : st.value ≠ [] := by
      intro h
      rw [h] at hlast
      exact Option.noConfusion hlast
    have hne2 : st.value.dropLast ≠ [] := by
      intro h
      rw [h] at hlast2
      exact Option.noConfusion hlast2
    have hlen1 : 0 < st.value.length := List.length_pos.mpr hne
    have hlen2 : 0 < st.value.dropLast.length := List.length_pos.mpr hne2
    have hdl : st.value.dropLast.length = st.value.length - 1 :=
      List.length_dropLast st.value
    have hcore : (onInputCore props st st.value.dropLast).nv
        = st.value.dropLast.dropLast := by
      simp only [onInputCore, hp, jsTruthy, Bool.false_eq_true, if_false,
        ite_false]
      rw [if_pos (by omega)]
      rw [if_pos (by simp only [beq_iff_eq]; omega)]
      rw [if_pos (by omega)]
      rw [jsCharAt_last _ hne2, jsCharAt_last _ hne, hlast, hlast2]
      rw [if_pos (by simpa using hcslash)]
      show handleDeletion st.value st.value.dropLast
        = st.value.dropLast.dropLast
      rw [handleDeletion, jsCharAt_last _ hne, hlast]
      rw [if_pos (by decide)]
      exact jsSubstr0_dropLast _
    have hnvlen : (onInputCore props st st.value.dropLast).nv.length ≤ 11 := by
      rw [hcore]
      have := List.length_dropLast st.value.dropLast
      omega
    rw [show onInput props st st.value.dropLast = onInputTail props
        st.visible (onInputCore props st st.value.dropLast) from rfl,
      onInputTail_value _ _ _ hnvlen, hcore]

/-- Claim C8, witness: instantiation at previous buffer "01/" (deleting the
separator also removes the adjoining digit, two characters total) and the
length bound at the same state. -/
theorem claimC8_witness :
    (onInput mdyProps { st0 with value := "01/".data }
        ("01/".data : JStr).dropLast).value.length ≤ ("01/".data : JStr).length
    ∧ (onInput mdyProps { st0 with value := "01/".data }
        ("01/".data : JStr).dropLast).value
      = ("01/".data : JStr).dropLast.dropLast :=
  ⟨claimC8.1 mdyProps { st0 with value := "01/".data } rfl,
   claimC8.2 mdyProps { st0 with value := "01/".data } '1' rfl (by decide)
     (by decide) (by decide) (by decide)⟩
